import Mathlib

/-!
Shallow embedding of `src/app/routes.py`: the payload validator
(`validate_payload`) and the `/event` handler (`event`) with its four alert
rules, together with spec-level descriptions of the rules and the reachable
states of the global `user_actions` map.

Numeric amounts are modeled as exact rationals.  To keep every operation
computable by the kernel they are carried as unreduced fractions (`Q` below)
with cross-multiplication comparison; `Q.val` maps them to Mathlib's `ℚ` and
the bridge lemmas `Q.ltb_iff_val` and `Q.val_add` show that, on the positive
denominators every constructor here produces, the comparisons and sums agree
with the real rational order and addition.
-/

namespace Midnite

/-- Exact rational number as an unreduced fraction `num / den`.  Every value
built in this development has a positive denominator (a power of ten). -/
structure Q : Type where
  num : Int
  den : Int
deriving DecidableEq

/-- Embed an integer. -/
def Q.ofInt (n : Int) : Q := ⟨n, 1⟩

/-- The rational value of a fraction. -/
def Q.val (a : Q) : ℚ := (a.num : ℚ) / (a.den : ℚ)

/-- Fraction addition without normalization. -/
def Q.add (a b : Q) : Q := ⟨a.num * b.den + b.num * a.den, a.den * b.den⟩

/-- Strict order by cross multiplication (correct for positive
denominators). -/
def Q.Lt (a b : Q) : Prop := a.num * b.den < b.num * a.den

instance Q.instDecidableLt (a b : Q) : Decidable (a.Lt b) :=
  inferInstanceAs (Decidable (a.num * b.den < b.num * a.den))

/-- Boolean strict order test. -/
def Q.ltb (a b : Q) : Bool := decide (a.Lt b)

/-- Boolean non-strict order test. -/
def Q.leb (a b : Q) : Bool := decide (a.num * b.den ≤ b.num * a.den)

/-- Sum of a list of fractions. -/
def Q.sum (l : List Q) : Q := l.foldr Q.add (Q.ofInt 0)

/-- JSON values as produced by parsing a request body.  Numbers are split into
integers (`jint`, a Python `int`) and non-integer numbers (`jnum`, a Python
`float`, whose numeric value is modeled exactly); booleans, strings, null,
arrays and nested objects complete the picture. -/
inductive JValue : Type
  | jnull : JValue
  | jbool : Bool → JValue
  | jint : Int → JValue
  | jnum : Q → JValue
  | jstr : String → JValue
  | jarr : List JValue → JValue
  | jobj : List (String × JValue) → JValue

/-- A parsed JSON object (a Python dict with string keys, unique by parsing). -/
abbrev Obj : Type := List (String × JValue)

/-- Python `k in data` for a dict. -/
def hasKey (d : Obj) (k : String) : Bool := d.any (fun p => p.1 == k)

/-- Python `data[k]` for a dict; the `jnull` fallback is never reached on keys
whose presence was checked. -/
def getKey (d : Obj) (k : String) : JValue :=
  match d.find? (fun p => p.1 == k) with
  | some p => p.2
  | none => .jnull

/-- Digit run to a natural number. -/
def digitsToNat (cs : List Char) : Nat :=
  cs.foldl (fun a c => 10 * a + (c.toNat - 48)) 0

/-- Exponent part of a float literal: an optional sign followed by digits. -/
def expDigits (cs : List Char) : Option Int :=
  match cs with
  | '+' :: r => if !r.isEmpty && r.all Char.isDigit then some (digitsToNat r : Int) else none
  | '-' :: r => if !r.isEmpty && r.all Char.isDigit then some (-(digitsToNat r : Int)) else none
  | r => if !r.isEmpty && r.all Char.isDigit then some (digitsToNat r : Int) else none

/-- Python `float(s)` on a plain decimal string literal: optional sign, digits
with an optional fractional part, optional exponent.  Exotic accepted
spellings (surrounding whitespace, digit separators, infinities, NaN) are
outside the model; there this function conservatively reports a parse
failure.  The rounding of a decimal literal to a binary float is idealized
away: the literal denotes its exact rational value. -/
def parseFloat? (s : String) : Option Q :=
  let cs := s.toList
  let signed :=
    match cs with
    | '-' :: r => (true, r)
    | '+' :: r => (false, r)
    | _ => (false, cs)
  let ip := signed.2.takeWhile Char.isDigit
  let rest1 := signed.2.drop ip.length
  let fpRest :=
    match rest1 with
    | '.' :: r => (r.takeWhile Char.isDigit, r.drop (r.takeWhile Char.isDigit).length)
    | _ => ([], rest1)
  if ip.isEmpty && fpRest.1.isEmpty then none
  else
    let eOpt :=
      match fpRest.2 with
      | [] => some (0 : Int)
      | 'e' :: r => expDigits r
      | 'E' :: r => expDigits r
      | _ => none
    match eOpt with
    | none => none
    | some e =>
      let mant : Int := (digitsToNat (ip ++ fpRest.1) : Int)
      let num0 : Int := if 0 ≤ e then mant * 10 ^ e.toNat else mant
      let den0 : Int :=
        if 0 ≤ e then (10 : Int) ^ fpRest.1.length
        else (10 : Int) ^ fpRest.1.length * 10 ^ (-e).toNat
      some ⟨if signed.1 then -num0 else num0, den0⟩

/-- Result of Python `float(v)`: a value, a `ValueError` (string that does not
parse), or a `TypeError` (null, array or object argument). -/
inductive FloatRes : Type
  | ok : Q → FloatRes
  | valueError : FloatRes
  | typeError : FloatRes

/-- Python `float(v)` on a JSON value.  A Python bool is a subclass of `int`
and converts to 0 or 1; `None`, lists and dicts raise `TypeError`. -/
def pyFloat : JValue → FloatRes
  | .jint n => .ok (Q.ofInt n)
  | .jnum q => .ok q
  | .jbool b => .ok (Q.ofInt (if b then 1 else 0))
  | .jstr s =>
    match parseFloat? s with
    | some q => .ok q
    | none => .valueError
  | _ => .typeError

/-- Numeric value of a Python number (`int`, `float`, or `bool`); `none` for
values that do not take part in numeric comparison. -/
def numVal? : JValue → Option Q
  | .jint n => some (Q.ofInt n)
  | .jnum q => some q
  | .jbool b => some (Q.ofInt (if b then 1 else 0))
  | _ => none

/-- Lexicographic comparison of code-point sequences, as Python compares
strings: a strict prefix is smaller, otherwise the first differing code point
decides. -/
def strLtList : List Char → List Char → Bool
  | [], [] => false
  | [], _ :: _ => true
  | _ :: _, [] => false
  | a :: as, b :: bs =>
    if a.toNat < b.toNat then true
    else if b.toNat < a.toNat then false
    else strLtList as bs

/-- Python `s < t` on strings. -/
def pyStrLt (s t : String) : Bool := strLtList s.toList t.toList

/-- Python `a > b` on the value shapes that can appear as a stored `amount`:
numeric comparison between numbers, lexicographic comparison between strings,
and a `TypeError` (`none`) for mixed or non-comparable shapes. -/
def pyGT (a b : JValue) : Option Bool :=
  match a, b with
  | .jstr x, .jstr y => some (pyStrLt y x)
  | _, _ =>
    match numVal? a, numVal? b with
    | some x, some y => some (Q.ltb y x)
    | _, _ => none

/-- Python chained comparison `a > b > c`: `a > b` is evaluated first and the
second comparison is skipped when the first is already false. -/
def chainGT3 (a b c : JValue) : Option Bool :=
  match pyGT a b with
  | none => none
  | some false => some false
  | some true => pyGT b c

/-- Python `isinstance(v, int)`; a Python bool is an instance of `int`. -/
def isPyInt : JValue → Bool
  | .jint _ => true
  | .jbool _ => true
  | _ => false

/-- Value of a validated Python `int` (bool included); the 0 fallback is never
reached on values that passed `isinstance(v, int)`. -/
def intVal : JValue → Int
  | .jint n => n
  | .jbool b => if b then 1 else 0
  | _ => 0

/-- Python `v == s` for a string literal `s`; values of any other type compare
unequal to a string without error. -/
def eqStr : JValue → String → Bool
  | .jstr t, s => t == s
  | _, _ => false

/-- The stored `time` field of an event object, as an integer. -/
def timeOf (a : Obj) : Int := intVal (getKey a "time")

/-- The `type` field equals `"deposit"` or `"withdraw"`. -/
def typeOk (a : Obj) : Bool :=
  eqStr (getKey a "type") "deposit" || eqStr (getKey a "type") "withdraw"

/-- The global `user_actions` dict: user id to list of stored event payloads. -/
abbrev State : Type := List (Int × List Obj)

/-- Python `user_actions[u]` lookup (first matching key). -/
def lookupUser : State → Int → Option (List Obj)
  | [], _ => none
  | p :: rest, u => if p.1 = u then some p.2 else lookupUser rest u

/-- The history stored for user `u`, empty when the user is absent. -/
def hist (st : State) (u : Int) : List Obj := (lookupUser st u).getD []

/-- Append an event to `user_actions[u]`, creating the entry if absent;
mirrors `user_actions[user_id] = []` followed by `.append(data)`. -/
def appendEv : State → Int → Obj → State
  | [], u, d => [(u, [d])]
  | p :: rest, u, d =>
    if p.1 = u then (p.1, p.2 ++ [d]) :: rest else p :: appendEv rest u d

/-- Result of `validate_payload`: `valid`, an error message (`False, msg` in
the source), or an uncaught Python exception escaping the function. -/
inductive VRes : Type
  | valid : VRes
  | invalid : String → VRes
  | pyError : VRes
deriving DecidableEq

/-- The validator of `routes.py`, check for check.  Only `ValueError` is
caught around `float(data[\x27amount\x27])` in the source, so a `TypeError`
raised there (null, array or object amount) escapes as `pyError`.  The two
`pyError` cases at the end model `IndexError` on an empty stored history and
`TypeError` when comparing `time` against a non-numeric stored value; both are
unreachable from reachable states. -/
def validate_payload (st : State) (data : Obj) : VRes :=
  if hasKey data "type" = false then .invalid "Missing field: type"
  else if hasKey data "amount" = false then .invalid "Missing field: amount"
  else if hasKey data "user_id" = false then .invalid "Missing field: user_id"
  else if hasKey data "time" = false then .invalid "Missing field: time"
  else if typeOk data = false then
    .invalid "Invalid action type. Must be \x27deposit\x27 or \x27withdraw\x27."
  else
    match pyFloat (getKey data "amount") with
    | .typeError => .pyError
    | .valueError => .invalid "Invalid amount. Must be a valid number."
    | .ok q =>
      if Q.ltb q (Q.ofInt 0) then .invalid "Amount cannot be negative."
      else if isPyInt (getKey data "user_id") = false then
        .invalid "Invalid user_id. Must be an integer."
      else if isPyInt (getKey data "time") = false then
        .invalid "Invalid time. Must be an integer."
      else
        match lookupUser st (intVal (getKey data "user_id")) with
        | none => .valid
        | some l =>
          match l.getLast? with
          | none => .pyError
          | some last =>
            match numVal? (getKey last "time") with
            | none => .pyError
            | some tl =>
              if Q.leb (Q.ofInt (intVal (getKey data "time"))) tl then
                .invalid "Time must be sequential and increasing."
              else .valid

/-- The `float(v)` value of an amount that already passed validation; the 0
fallback is never reached on validated amounts. -/
def floatVal (v : JValue) : Q :=
  match pyFloat v with
  | .ok q => q
  | _ => Q.ofInt 0

/-- Rule 1100: the current event is a withdrawal of amount strictly over
100. -/
def rule1100 (data : Obj) : Bool :=
  eqStr (getKey data "type") "withdraw" && Q.ltb (Q.ofInt 100) (floatVal (getKey data "amount"))

/-- Python `h[-3:]`: the trailing (at most) three elements. -/
def last3 (h : List Obj) : List Obj := h.drop (h.length - 3)

/-- Rule 30: the history has at least 3 events and the trailing 3 are all
withdrawals. -/
def rule30 (h : List Obj) : Bool :=
  decide (3 ≤ h.length) && (last3 h).all (fun a => eqStr (getKey a "type") "withdraw")

/-- The `type` field equals `"deposit"`. -/
def isDeposit (a : Obj) : Bool := eqStr (getKey a "type") "deposit"

/-- Rule 300 as written in the source: filter deposits and compare the raw
`amount` payload values of the last three with Python chained `>`; a mixed
string/number comparison raises `TypeError` (`none`). -/
def rule300 (h : List Obj) : Option Bool :=
  let ds := h.filter isDeposit
  if 3 ≤ ds.length then
    chainGT3 (getKey (ds.reverse.getD 0 []) "amount") (getKey (ds.reverse.getD 1 []) "amount")
      (getKey (ds.reverse.getD 2 []) "amount")
  else some false

/-- Rule 123: the `float` amounts of deposits whose time lies within 30 units
back from the current time sum to strictly more than 200. -/
def rule123 (h : List Obj) (t : Int) : Bool :=
  Q.ltb (Q.ofInt 200)
    (Q.sum ((h.filter (fun a => isDeposit a && decide (t - timeOf a ≤ 30))).map
      (fun a => floatVal (getKey a "amount"))))

/-- The collected alert codes, in the fixed source order, given the outcome of
rule 300. -/
def codesOf (h : List Obj) (data : Obj) (b3 : Bool) : List Int :=
  (if rule1100 data then [1100] else []) ++ (if rule30 h then [30] else [])
    ++ (if b3 then [300] else []) ++ (if rule123 h (timeOf data) then [123] else [])

/-- Evaluate the four rules on the post-append history; `none` is an uncaught
exception raised while evaluating rule 300. -/
def runRules (h : List Obj) (data : Obj) : Option (List Int) :=
  match rule300 h with
  | none => none
  | some b3 => some (codesOf h data b3)

/-- The JSON body returned on success: `alert`, `alert_codes`, `user_id`. -/
structure AlertResult : Type where
  alert : Bool
  alert_codes : List Int
  user_id : JValue

/-- Outcome of one request to `/event`: a success body, a 400 with an error
message, or a 500 from an uncaught exception. -/
inductive Response : Type
  | ok : AlertResult → Response
  | badRequest : String → Response
  | serverError : Response

/-- The `/event` handler after JSON parsing: validate, then append to the
per-user history and evaluate the four rules.  The second component is the
updated global `user_actions` map; an exception during rule evaluation
(`serverError`) still leaves the already-appended event in place, exactly as
in the source, where the append precedes rule evaluation. -/
def event (st : State) (data : Obj) : Response × State :=
  match validate_payload st data with
  | .invalid msg => (.badRequest msg, st)
  | .pyError => (.serverError, st)
  | .valid =>
    match runRules
        (hist (appendEv st (intVal (getKey data "user_id")) data)
          (intVal (getKey data "user_id"))) data with
    | none => (.serverError, appendEv st (intVal (getKey data "user_id")) data)
    | some codes =>
      (.ok ⟨!codes.isEmpty, codes, getKey data "user_id"⟩,
        appendEv st (intVal (getKey data "user_id")) data)

/-- Iterated resubmission of the same payload. -/
def submitN : Nat → State → Obj → State
  | 0, st, _ => st
  | n + 1, st, data => submitN n (event st data).2 data

/-- States of `user_actions` reachable by some sequence of requests from the
initial empty dict. -/
inductive Reach : State → Prop
  | init : Reach []
  | step (st : State) (data : Obj) : Reach st → Reach (event st data).2

/-- Spec-level event kind. -/
inductive Kind : Type
  | deposit : Kind
  | withdraw : Kind
deriving DecidableEq

/-- Spec-level event: kind, numeric amount, integer time. -/
structure Ev : Type where
  kind : Kind
  amount : Q
  time : Int
deriving DecidableEq

/-- Abstraction of a validated stored payload to a spec-level event. -/
def absEv (a : Obj) : Ev :=
  ⟨if isDeposit a then .deposit else .withdraw, floatVal (getKey a "amount"), timeOf a⟩

/-- Placeholder event for out-of-range list indexing in spec formulas. -/
def dummyEv : Ev := ⟨.deposit, Q.ofInt 0, 0⟩

/-- Spec rule 30: at least 3 events and the trailing 3 are withdrawals. -/
def specRule30 (l : List Ev) : Prop :=
  3 ≤ l.length ∧ ∀ e ∈ l.drop (l.length - 3), e.kind = .withdraw

/-- The deposit subsequence of a spec-level history. -/
def specDeposits (l : List Ev) : List Ev := l.filter (fun e => e.kind == Kind.deposit)

/-- Spec rule 300: at least 3 deposits, and the numeric amounts of the last
three deposits are strictly increasing in chronological order. -/
def specRule300 (l : List Ev) : Prop :=
  3 ≤ (specDeposits l).length ∧
    Q.Lt ((specDeposits l).reverse.getD 1 dummyEv).amount
      ((specDeposits l).reverse.getD 0 dummyEv).amount ∧
    Q.Lt ((specDeposits l).reverse.getD 2 dummyEv).amount
      ((specDeposits l).reverse.getD 1 dummyEv).amount

instance (l : List Ev) : Decidable (specRule300 l) := by
  unfold specRule300
  infer_instance

/-- Spec rule 123: the amounts of deposits with `t - time ≤ 30` sum to more
than 200. -/
def specRule123 (l : List Ev) (t : Int) : Prop :=
  Q.Lt (Q.ofInt 200)
    (Q.sum ((l.filter (fun e => e.kind == Kind.deposit && decide (t - e.time ≤ 30))).map Ev.amount))

instance (l : List Ev) (t : Int) : Decidable (specRule123 l t) := by
  unfold specRule123
  infer_instance

/-- Spec rule 1100: the event is a withdrawal of numeric amount over 100. -/
def specRule1100 (e : Ev) : Prop := e.kind = .withdraw ∧ Q.Lt (Q.ofInt 100) e.amount

instance (e : Ev) : Decidable (specRule1100 e) := by
  unfold specRule1100
  infer_instance

/-- A stored payload is well formed: validated type tag and integer time. -/
def storedOk (a : Obj) : Bool := typeOk a && isPyInt (getKey a "time")

/-- One entry of `user_actions` is well formed: non-empty history of well
formed payloads with strictly increasing times. -/
def EntryOk (p : Int × List Obj) : Prop :=
  p.2 ≠ [] ∧ List.Chain' (fun a b => timeOf a < timeOf b) p.2 ∧ ∀ a ∈ p.2, storedOk a = true

/-- Global invariant of `user_actions`: distinct user keys and well formed
entries. -/
def Inv (st : State) : Prop :=
  (st.map Prod.fst).Nodup ∧ ∀ p ∈ st, EntryOk p

/-- Deposit of 250 at time 0 by user 1. -/
def exDep : Obj := [("type", .jstr "deposit"), ("amount", .jint 250), ("user_id", .jint 1), ("time", .jint 0)]

/-- Deposit of 100 at time 0 by user 1. -/
def exDepA : Obj := [("type", .jstr "deposit"), ("amount", .jint 100), ("user_id", .jint 1), ("time", .jint 0)]

/-- Deposit of 150 at time 10 by user 1. -/
def exDepB : Obj := [("type", .jstr "deposit"), ("amount", .jint 150), ("user_id", .jint 1), ("time", .jint 10)]

/-- Withdrawal of 10 at time 1 by user 1. -/
def exW1 : Obj := [("type", .jstr "withdraw"), ("amount", .jint 10), ("user_id", .jint 1), ("time", .jint 1)]

/-- Withdrawal of 10 at time 2 by user 1. -/
def exW2 : Obj := [("type", .jstr "withdraw"), ("amount", .jint 10), ("user_id", .jint 1), ("time", .jint 2)]

/-- Withdrawal of 200 at time 3 by user 1. -/
def exW3 : Obj := [("type", .jstr "withdraw"), ("amount", .jint 200), ("user_id", .jint 1), ("time", .jint 3)]

/-- Withdrawal of 150 at time 1 by user 1. -/
def exW150 : Obj := [("type", .jstr "withdraw"), ("amount", .jint 150), ("user_id", .jint 1), ("time", .jint 1)]

/-- Deposit with the numeric-string amount "8" at time 1 by user 1. -/
def exS1 : Obj := [("type", .jstr "deposit"), ("amount", .jstr "8"), ("user_id", .jint 1), ("time", .jint 1)]

/-- Deposit with the numeric-string amount "9" at time 2 by user 1. -/
def exS2 : Obj := [("type", .jstr "deposit"), ("amount", .jstr "9"), ("user_id", .jint 1), ("time", .jint 2)]

/-- Deposit with the numeric-string amount "10" at time 3 by user 1. -/
def exS3 : Obj := [("type", .jstr "deposit"), ("amount", .jstr "10"), ("user_id", .jint 1), ("time", .jint 3)]

/-- Deposit payload whose `amount` is JSON null. -/
def exNullAmount : Obj := [("type", .jstr "deposit"), ("amount", .jnull), ("user_id", .jint 1), ("time", .jint 1)]

/-! Infrastructure lemmas about the handler. -/

theorem hist_appendEv (st : State) (u : Int) (d : Obj) :
    hist (appendEv st u d) u = hist st u ++ [d] := by
  induction st with
  | nil => simp [hist, appendEv, lookupUser]
  | cons p rest ih =>
    by_cases hp : p.1 = u
    · simp [hist, appendEv, lookupUser, hp]
    · simpa [hist, appendEv, lookupUser, hp] using ih

theorem runRules_some (h : List Obj) (data : Obj) (codes : List Int)
    (hr : runRules h data = some codes) :
    ∃ b3 : Bool, rule300 h = some b3 ∧ codes = codesOf h data b3 := by
  unfold runRules at hr
  cases h3 : rule300 h with
  | none => rw [h3] at hr; simp at hr
  | some b3 =>
    rw [h3] at hr
    simp only [Option.some.injEq] at hr
    exact ⟨b3, rfl, hr.symm⟩

theorem event_snd_not_valid (st : State) (data : Obj)
    (h : validate_payload st data ≠ .valid) : (event st data).2 = st := by
  unfold event
  cases hv : validate_payload st data with
  | valid => exact absurd hv h
  | invalid msg => rfl
  | pyError => rfl

theorem event_snd_valid (st : State) (data : Obj)
    (h : validate_payload st data = .valid) :
    (event st data).2 = appendEv st (intVal (getKey data "user_id")) data := by
  unfold event
  rw [h]
  cases hr : runRules
      (hist (appendEv st (intVal (getKey data "user_id")) data)
        (intVal (getKey data "user_id"))) data with
  | none => rfl
  | some codes => rfl

theorem event_ok_elim (st : State) (data : Obj) (r : AlertResult)
    (hev : (event st data).1 = .ok r) :
    validate_payload st data = .valid ∧
      ∃ b3 : Bool,
        rule300 (hist st (intVal (getKey data "user_id")) ++ [data]) = some b3 ∧
        r.alert_codes = codesOf (hist st (intVal (getKey data "user_id")) ++ [data]) data b3 ∧
        r.alert = !(codesOf (hist st (intVal (getKey data "user_id")) ++ [data]) data b3).isEmpty ∧
        r.user_id = getKey data "user_id" := by
  unfold event at hev
  cases hv : validate_payload st data with
  | invalid msg => rw [hv] at hev; simp at hev
  | pyError => rw [hv] at hev; simp at hev
  | valid =>
    rw [hv] at hev
    rw [hist_appendEv] at hev
    cases hr : runRules (hist st (intVal (getKey data "user_id")) ++ [data]) data with
    | none => rw [hr] at hev; simp at hev
    | some codes =>
      rw [hr] at hev
      obtain ⟨b3, h3, hc⟩ := runRules_some _ _ _ hr
      simp only [Response.ok.injEq] at hev
      refine ⟨rfl, b3, h3, ?_, ?_, ?_⟩
      · rw [← hev]; exact hc
      · rw [← hev, hc]
      · rw [← hev]

theorem mem_codesOf (h : List Obj) (data : Obj) (b3 : Bool) (x : Int) :
    x ∈ codesOf h data b3 ↔
      ((rule1100 data = true ∧ x = 1100) ∨ (rule30 h = true ∧ x = 30) ∨
        (b3 = true ∧ x = 300) ∨ (rule123 h (timeOf data) = true ∧ x = 123)) := by
  unfold codesOf
  cases h1 : rule1100 data <;> cases h2 : rule30 h <;> cases b3 <;>
    cases h4 : rule123 h (timeOf data) <;> simp

/-! Bridge lemmas: on positive denominators the fraction order and sum agree
with the rational order and sum. -/

theorem Q.ltb_eq_true_iff (a b : Q) : (Q.ltb a b = true) ↔ Q.Lt a b := by
  simp [Q.ltb]

theorem Q.lt_iff_val {a b : Q} (ha : 0 < a.den) (hb : 0 < b.den) :
    Q.Lt a b ↔ a.val < b.val := by
  unfold Q.Lt Q.val
  rw [div_lt_div_iff₀ (by exact_mod_cast ha) (by exact_mod_cast hb)]
  exact_mod_cast Iff.rfl

theorem Q.val_add {a b : Q} (ha : a.den ≠ 0) (hb : b.den ≠ 0) :
    (Q.add a b).val = a.val + b.val := by
  unfold Q.add Q.val
  rw [div_add_div _ _ (by exact_mod_cast ha) (by exact_mod_cast hb)]
  push_cast
  ring_nf

/-! Lemmas about type tags and the abstraction to spec-level events. -/

theorem eqStr_exclusive {v : JValue} {s t : String} (hst : s ≠ t)
    (h : eqStr v s = true) : eqStr v t = false := by
  cases v <;> simp_all [eqStr]

theorem absEv_amount (a : Obj) : (absEv a).amount = floatVal (getKey a "amount") := rfl

theorem absEv_time (a : Obj) : (absEv a).time = timeOf a := rfl

theorem absEv_kind_deposit (a : Obj) :
    (absEv a).kind = Kind.deposit ↔ isDeposit a = true := by
  unfold absEv
  cases h : isDeposit a <;> simp [h]

theorem absEv_kind_withdraw (a : Obj) (hty : typeOk a = true) :
    ((absEv a).kind = Kind.withdraw ↔ eqStr (getKey a "type") "withdraw" = true) := by
  unfold absEv
  cases h : isDeposit a with
  | false =>
    have hw : eqStr (getKey a "type") "withdraw" = true := by
      unfold typeOk at hty
      unfold isDeposit at h
      simpa [h] using hty
    simp [hw]
  | true =>
    have hd : eqStr (getKey a "type") "deposit" = true := by
      unfold isDeposit at h
      exact h
    have hw : eqStr (getKey a "type") "withdraw" = false :=
      @eqStr_exclusive (getKey a "type") "deposit" "withdraw" (by decide) hd
    simp [hw]

/-! Facts extracted from a successful validation. -/

theorem validate_valid_facts (st : State) (data : Obj)
    (hv : validate_payload st data = .valid) :
    typeOk data = true ∧ isPyInt (getKey data "user_id") = true ∧
      isPyInt (getKey data "time") = true ∧
      ∀ l ∈ lookupUser st (intVal (getKey data "user_id")),
        ∀ last ∈ l.getLast?,
          ∀ tl ∈ numVal? (getKey last "time"),
            Q.leb (Q.ofInt (intVal (getKey data "time"))) tl = false := by
  unfold validate_payload at hv
  repeat' split at hv
  all_goals simp_all

/-! Correspondence of the implemented rules with their spec-level forms. -/

theorem rule1100_iff_spec (data : Obj) (hty : typeOk data = true) :
    rule1100 data = true ↔ specRule1100 (absEv data) := by
  unfold rule1100 specRule1100
  rw [Bool.and_eq_true, Q.ltb_eq_true_iff, absEv_amount]
  exact and_congr_left (fun _ => (absEv_kind_withdraw data hty).symm)

theorem rule30_iff_spec (h : List Obj) (hty : ∀ a ∈ h, typeOk a = true) :
    rule30 h = true ↔ specRule30 (h.map absEv) := by
  unfold rule30 specRule30 last3
  rw [Bool.and_eq_true, decide_eq_true_eq, List.all_eq_true, List.length_map,
    ← List.map_drop, List.forall_mem_map]
  refine and_congr_right (fun _ => ?_)
  constructor
  · intro h2 a ha
    exact (absEv_kind_withdraw a (hty a (List.drop_subset _ _ ha))).2 (h2 a ha)
  · intro h2 a ha
    exact (absEv_kind_withdraw a (hty a (List.drop_subset _ _ ha))).1 (h2 a ha)

theorem rule123_filter_map (h : List Obj) (t : Int) :
    ((h.map absEv).filter (fun e => e.kind == Kind.deposit && decide (t - e.time ≤ 30))).map
        Ev.amount
      = (h.filter (fun a => isDeposit a && decide (t - timeOf a ≤ 30))).map
          (fun a => floatVal (getKey a "amount")) := by
  induction h with
  | nil => rfl
  | cons a rest ih =>
    have hpred : ((absEv a).kind == Kind.deposit && decide (t - (absEv a).time ≤ 30))
        = (isDeposit a && decide (t - timeOf a ≤ 30)) := by
      cases hd : isDeposit a <;> simp [absEv, hd, absEv_time]
    simp only [List.map_cons, List.filter_cons, hpred]
    cases hc : (isDeposit a && decide (t - timeOf a ≤ 30)) with
    | false =>
      rw [if_neg (by simp), if_neg (by simp)]
      exact ih
    | true =>
      rw [if_pos rfl, if_pos rfl]
      simp only [List.map_cons, absEv_amount]
      rw [ih]

theorem rule123_iff_spec (h : List Obj) (t : Int) :
    rule123 h t = true ↔ specRule123 (h.map absEv) t := by
  unfold rule123 specRule123
  rw [Q.ltb_eq_true_iff, rule123_filter_map]

/-! Invariant machinery: reachable states have distinct keys, non-empty
histories, strictly increasing times, and validated stored payloads. -/

theorem lookupUser_eq_of_mem_nodup (st : State) (p : Int × List Obj)
    (hnd : (st.map Prod.fst).Nodup) (hp : p ∈ st) : lookupUser st p.1 = some p.2 := by
  induction st with
  | nil => cases hp
  | cons q rest ih =>
    have hnd' := hnd
    rw [List.map_cons, List.nodup_cons] at hnd'
    rcases List.mem_cons.1 hp with rfl | hmem
    · simp [lookupUser]
    · have hq : ¬(q.1 = p.1) := by
        intro he
        exact hnd'.1 (he ▸ List.mem_map.2 ⟨p, hmem, rfl⟩)
      rw [show lookupUser (q :: rest) p.1 = if q.1 = p.1 then some q.2 else lookupUser rest p.1 from rfl,
        if_neg hq]
      exact ih hnd'.2 hmem

theorem keys_appendEv (st : State) (u : Int) (d : Obj) :
    (appendEv st u d).map Prod.fst =
      if u ∈ st.map Prod.fst then st.map Prod.fst else st.map Prod.fst ++ [u] := by
  induction st with
  | nil => simp [appendEv]
  | cons p rest ih =>
    by_cases hp : p.1 = u
    · simp [appendEv, hp]
    · have hne : ¬(u = p.1) := fun he => hp he.symm
      simp only [appendEv, if_neg hp, List.map_cons, ih, List.mem_cons]
      by_cases hm : u ∈ rest.map Prod.fst <;> simp [hm, hne]

theorem nodup_keys_appendEv (st : State) (u : Int) (d : Obj)
    (hnd : (st.map Prod.fst).Nodup) : ((appendEv st u d).map Prod.fst).Nodup := by
  rw [keys_appendEv]
  by_cases hm : u ∈ st.map Prod.fst
  · simpa [hm] using hnd
  · simp [hm, List.nodup_append, hnd]

theorem appendEv_forall (P : Int × List Obj → Prop) :
    ∀ (st : State) (u : Int) (d : Obj),
      (∀ p ∈ st, P p) → (∀ p ∈ st, p.1 = u → P (p.1, p.2 ++ [d])) → P (u, [d]) →
      ∀ p ∈ appendEv st u d, P p := by
  intro st
  induction st with
  | nil =>
    intro u d _ _ h3 p hp
    simp only [appendEv, List.mem_singleton] at hp
    exact hp ▸ h3
  | cons q rest ih =>
    intro u d h0 h2 h3 p hp
    by_cases hq : q.1 = u
    · rw [show appendEv (q :: rest) u d = (q.1, q.2 ++ [d]) :: rest from by
        rw [show appendEv (q :: rest) u d = if q.1 = u then (q.1, q.2 ++ [d]) :: rest
          else q :: appendEv rest u d from rfl, if_pos hq]] at hp
      rcases List.mem_cons.1 hp with rfl | hm
      · exact h2 q (List.mem_cons_self q rest) hq
      · exact h0 p (List.mem_cons_of_mem q hm)
    · rw [show appendEv (q :: rest) u d = q :: appendEv rest u d from by
        rw [show appendEv (q :: rest) u d = if q.1 = u then (q.1, q.2 ++ [d]) :: rest
          else q :: appendEv rest u d from rfl, if_neg hq]] at hp
      rcases List.mem_cons.1 hp with rfl | hm
      · exact h0 p (List.mem_cons_self p rest)
      · exact ih u d (fun x hx => h0 x (List.mem_cons_of_mem q hx))
          (fun x hx hxu => h2 x (List.mem_cons_of_mem q hx) hxu) h3 p hm

theorem inv_step (st : State) (data : Obj) (hinv : Inv st)
    (hv : validate_payload st data = .valid) :
    Inv (appendEv st (intVal (getKey data "user_id")) data) := by
  obtain ⟨hty, hid, htime, hmono⟩ := validate_valid_facts st data hv
  constructor
  · exact nodup_keys_appendEv st _ data hinv.1
  · refine appendEv_forall EntryOk st _ data hinv.2 ?_ ?_
    · intro p hp hpu
      have hE := hinv.2 p hp
      have hlk : lookupUser st p.1 = some p.2 := lookupUser_eq_of_mem_nodup st p hinv.1 hp
      have hne := hE.1
      have hget : p.2.getLast? = some (p.2.getLast hne) :=
        List.getLast?_eq_getLast_of_ne_nil hne
      have hstored : storedOk (p.2.getLast hne) = true :=
        hE.2.2 (p.2.getLast hne) (List.getLast_mem hne)
      have hint : isPyInt (getKey (p.2.getLast hne) "time") = true := by
        unfold storedOk at hstored
        simp only [Bool.and_eq_true] at hstored
        exact hstored.2
      have hnum : numVal? (getKey (p.2.getLast hne) "time")
          = some (Q.ofInt (timeOf (p.2.getLast hne))) := by
        unfold timeOf
        cases hkv : getKey (p.2.getLast hne) "time" with
        | jint n => simp [numVal?, intVal]
        | jbool b => simp [numVal?, intVal]
        | jnull => rw [hkv] at hint; simp [isPyInt] at hint
        | jnum q => rw [hkv] at hint; simp [isPyInt] at hint
        | jstr s => rw [hkv] at hint; simp [isPyInt] at hint
        | jarr l => rw [hkv] at hint; simp [isPyInt] at hint
        | jobj f => rw [hkv] at hint; simp [isPyInt] at hint
      have hleb : Q.leb (Q.ofInt (intVal (getKey data "time")))
          (Q.ofInt (timeOf (p.2.getLast hne))) = false := by
        refine hmono p.2 ?_ (p.2.getLast hne) ?_ (Q.ofInt (timeOf (p.2.getLast hne))) ?_
        · rw [Option.mem_def, ← hpu]; exact hlk
        · rw [Option.mem_def]; exact hget
        · rw [Option.mem_def]; exact hnum
      have hlt : timeOf (p.2.getLast hne) < timeOf data := by
        unfold timeOf
        simpa [Q.leb, Q.ofInt] using hleb
      refine ⟨by simp, ?_, ?_⟩
      · rw [List.chain'_append]
        refine ⟨hE.2.1, List.chain'_singleton data, ?_⟩
        intro x hx y hy
        rw [Option.mem_def, hget, Option.some.injEq] at hx
        simp only [List.head?_cons, Option.mem_def, Option.some.injEq] at hy
        subst hx
        subst hy
        exact hlt
      · intro a ha
        rcases List.mem_append.1 ha with h | h
        · exact hE.2.2 a h
        · rw [List.mem_singleton] at h
          subst h
          simp [storedOk, hty, htime]
    · refine ⟨by simp, List.chain'_singleton data, ?_⟩
      intro a ha
      rw [List.mem_singleton] at ha
      subst ha
      simp [storedOk, hty, htime]

theorem reach_inv (st : State) (h : Reach st) : Inv st := by
  induction h with
  | init => exact ⟨List.nodup_nil, by simp⟩
  | step st data _ ih =>
    by_cases hv : validate_payload st data = .valid
    · rw [event_snd_valid st data hv]
      exact inv_step st data ih hv
    · rw [event_snd_not_valid st data hv]
      exact ih

theorem lookupUser_some_mem (st : State) (u : Int) (l : List Obj)
    (h : lookupUser st u = some l) : (u, l) ∈ st := by
  induction st with
  | nil => simp [lookupUser] at h
  | cons q rest ih =>
    rw [show lookupUser (q :: rest) u = if q.1 = u then some q.2 else lookupUser rest u
      from rfl] at h
    by_cases hq : q.1 = u
    · rw [if_pos hq] at h
      injection h with h
      have : q = (u, l) := by
        cases q
        simp_all
      rw [← this]
      exact List.mem_cons_self q rest
    · rw [if_neg hq] at h
      exact List.mem_cons_of_mem q (ih h)

theorem typeOk_of_hist (st : State) (u : Int) (hinv : Inv st) :
    ∀ a ∈ hist st u, typeOk a = true := by
  intro a ha
  unfold hist at ha
  cases hl : lookupUser st u with
  | none => rw [hl] at ha; simp at ha
  | some l =>
    rw [hl] at ha
    simp only [Option.getD_some] at ha
    have hE := hinv.2 (u, l) (lookupUser_some_mem st u l hl)
    have hs := hE.2.2 a ha
    unfold storedOk at hs
    simp only [Bool.and_eq_true] at hs
    exact hs.1

theorem codesOf_sublist (h : List Obj) (data : Obj) (b3 : Bool) :
    (codesOf h data b3).Sublist [1100, 30, 300, 123] := by
  unfold codesOf
  cases h1 : rule1100 data <;> cases h2 : rule30 h <;> cases b3 <;>
    cases h4 : rule123 h (timeOf data) <;> decide

theorem sublist_1100_30 (h : List Obj) (data : Obj) (b3 : Bool)
    (h1 : rule1100 data = true) (h2 : rule30 h = true) :
    ([1100, 30] : List Int).Sublist (codesOf h data b3) := by
  unfold codesOf
  rw [h1, h2]
  cases b3 <;> cases h4 : rule123 h (timeOf data) <;> decide

theorem rule30_append_true (l : List Obj) (data : Obj)
    (hlen : 2 ≤ l.length)
    (h2 : ∀ a ∈ l.drop (l.length - 2), eqStr (getKey a "type") "withdraw" = true)
    (hd : eqStr (getKey data "type") "withdraw" = true) :
    rule30 (l ++ [data]) = true := by
  unfold rule30 last3
  rw [Bool.and_eq_true]
  constructor
  · simp only [List.length_append, List.length_singleton, decide_eq_true_eq]
    omega
  · rw [List.all_eq_true]
    intro a ha
    rw [show (l ++ [data]).length = l.length + 1 from by simp,
      List.drop_append_of_le_length (by omega)] at ha
    rcases List.mem_append.1 ha with h | h
    · have he : l.length + 1 - 3 = l.length - 2 := by omega
      rw [he] at h
      exact h2 a h
    · rw [List.mem_singleton] at h
      subst h
      exact hd

/-! The claims. -/

/-- C1 (code bug): rule 300 compares the raw stored `amount` payload values
with Python `>`, without the `float` conversion the validator and the other
rules use.  For the numeric-string deposits "8", "9", "10" (numerically
increasing) the comparison is lexicographic, so the handler returns no code
300 even though the spec condition — the numeric amounts of the last three
deposits strictly increasing in chronological order — holds for this
post-append history. -/
theorem rule300_raw_comparison_bug :
    (event (event (event [] exS1).2 exS2).2 exS3).1 = .ok ⟨false, [], .jint 1⟩ ∧
      specRule300 ((hist (event (event [] exS1).2 exS2).2
        (intVal (getKey exS3 "user_id")) ++ [exS3]).map absEv) :=
  ⟨rfl, by decide⟩

/-- C2: a success response contains code 123 exactly when the amounts of the
deposits in the post-append history whose time lies within 30 units backward
of the current event's time sum to strictly more than 200. -/
theorem deposit_burst_iff (st : State) (data : Obj) (r : AlertResult)
    (_hst : Reach st) (hev : (event st data).1 = .ok r) :
    (123 ∈ r.alert_codes ↔
      specRule123 ((hist st (intVal (getKey data "user_id")) ++ [data]).map absEv)
        (timeOf data)) := by
  obtain ⟨hval, b3, h3, hcodes, -, -⟩ := event_ok_elim st data r hev
  rw [hcodes, mem_codesOf, ← rule123_iff_spec]
  simp

/-- C2 witness: deposits of 100 at time 0 and 150 at time 10 make the second
response carry code 123. -/
theorem deposit_burst_iff_witness :
    (123 ∈ (⟨true, [123], .jint 1⟩ : AlertResult).alert_codes ↔
      specRule123 ((hist (event [] exDepA).2 (intVal (getKey exDepB "user_id"))
        ++ [exDepB]).map absEv) (timeOf exDepB)) :=
  deposit_burst_iff (event [] exDepA).2 exDepB ⟨true, [123], .jint 1⟩
    (Reach.step [] exDepA Reach.init) rfl

/-- C3: a success response contains code 30 exactly when the post-append
history has at least 3 events and its trailing 3 are all withdrawals. -/
theorem triple_withdrawal_iff (st : State) (data : Obj) (r : AlertResult)
    (hst : Reach st) (hev : (event st data).1 = .ok r) :
    (30 ∈ r.alert_codes ↔
      specRule30 ((hist st (intVal (getKey data "user_id")) ++ [data]).map absEv)) := by
  obtain ⟨hval, b3, h3, hcodes, -, -⟩ := event_ok_elim st data r hev
  obtain ⟨hty, -, -, -⟩ := validate_valid_facts st data hval
  have hinv := reach_inv st hst
  have htyAll : ∀ a ∈ hist st (intVal (getKey data "user_id")) ++ [data], typeOk a = true := by
    intro a ha
    rcases List.mem_append.1 ha with h | h
    · exact typeOk_of_hist st _ hinv a h
    · rw [List.mem_singleton] at h
      subst h
      exact hty
  rw [hcodes, mem_codesOf, ← rule30_iff_spec _ htyAll]
  simp

/-- C3 witness: three consecutive withdrawals make the third response carry
code 30 (here together with 1100, as the third withdrawal is 200). -/
theorem triple_withdrawal_iff_witness :
    (30 ∈ (⟨true, [1100, 30], .jint 1⟩ : AlertResult).alert_codes ↔
      specRule30 ((hist (event (event [] exW1).2 exW2).2
        (intVal (getKey exW3 "user_id")) ++ [exW3]).map absEv)) :=
  triple_withdrawal_iff (event (event [] exW1).2 exW2).2 exW3 ⟨true, [1100, 30], .jint 1⟩
    (Reach.step _ exW2 (Reach.step [] exW1 Reach.init)) rfl

/-- C4: a success response contains code 1100 exactly when the submitted
event itself is a withdrawal of numeric amount strictly over 100; the
condition mentions only the submitted event, not the history. -/
theorem large_withdrawal_iff (st : State) (data : Obj) (r : AlertResult)
    (_hst : Reach st) (hev : (event st data).1 = .ok r) :
    (1100 ∈ r.alert_codes ↔ specRule1100 (absEv data)) := by
  obtain ⟨hval, b3, h3, hcodes, -, -⟩ := event_ok_elim st data r hev
  obtain ⟨hty, -, -, -⟩ := validate_valid_facts st data hval
  rw [hcodes, mem_codesOf, ← rule1100_iff_spec data hty]
  simp

/-- C4 witness: a withdrawal of 150 by a fresh user yields code 1100. -/
theorem large_withdrawal_iff_witness :
    (1100 ∈ (⟨true, [1100], .jint 1⟩ : AlertResult).alert_codes ↔
      specRule1100 (absEv exW150)) :=
  large_withdrawal_iff [] exW150 ⟨true, [1100], .jint 1⟩ Reach.init rfl

/-- C5: alert codes always form a subsequence of `[1100, 30, 300, 123]` in
that fixed order, and a withdrawal over 100 whose two immediate history
predecessors are withdrawals triggers both 1100 and 30, in that order. -/
theorem rules_fixed_order_and_combination (st : State) (data : Obj) (r : AlertResult)
    (hst : Reach st) (hev : (event st data).1 = .ok r) :
    r.alert_codes.Sublist [1100, 30, 300, 123] ∧
      ((absEv data).kind = .withdraw → Q.Lt (Q.ofInt 100) (absEv data).amount →
        2 ≤ (hist st (intVal (getKey data "user_id"))).length →
        (∀ a ∈ (hist st (intVal (getKey data "user_id"))).drop
            ((hist st (intVal (getKey data "user_id"))).length - 2),
          (absEv a).kind = .withdraw) →
        ([1100, 30] : List Int).Sublist r.alert_codes) := by
  obtain ⟨hval, b3, h3, hcodes, -, -⟩ := event_ok_elim st data r hev
  obtain ⟨hty, -, -, -⟩ := validate_valid_facts st data hval
  have hinv := reach_inv st hst
  refine ⟨by rw [hcodes]; exact codesOf_sublist _ _ _, ?_⟩
  intro hk ha hlen hprev
  have h1 : rule1100 data = true := by
    rw [rule1100_iff_spec data hty]
    exact ⟨hk, ha⟩
  have h2 : rule30 (hist st (intVal (getKey data "user_id")) ++ [data]) = true := by
    refine rule30_append_true _ _ hlen ?_ ?_
    · intro a hadrop
      have hmem : a ∈ hist st (intVal (getKey data "user_id")) :=
        List.drop_subset _ _ hadrop
      exact (absEv_kind_withdraw a (typeOk_of_hist st _ hinv a hmem)).1 (hprev a hadrop)
    · exact (absEv_kind_withdraw data hty).1 hk
  rw [hcodes]
  exact sublist_1100_30 _ _ _ h1 h2

/-- C5 witness: a withdrawal of 200 after two withdrawals triggers exactly
`[1100, 30]`, with 1100 before 30, a subsequence of the fixed order. -/
theorem rules_fixed_order_and_combination_witness :
    ([1100, 30] : List Int).Sublist (⟨true, [1100, 30], .jint 1⟩ : AlertResult).alert_codes ∧
      (⟨true, [1100, 30], .jint 1⟩ : AlertResult).alert_codes.Sublist [1100, 30, 300, 123] := by
  have h := rules_fixed_order_and_combination (event (event [] exW1).2 exW2).2 exW3
    ⟨true, [1100, 30], .jint 1⟩ (Reach.step _ exW2 (Reach.step [] exW1 Reach.init)) rfl
  exact ⟨h.2 (by decide) (by decide) (by decide) (by decide), h.1⟩

/-- C6: a payload that does not validate leaves the history map completely
unchanged, no matter how many times it is resubmitted. -/
theorem invalid_payload_no_side_effects (st : State) (data : Obj)
    (h : validate_payload st data ≠ .valid) :
    ∀ n : Nat, submitN n st data = st := by
  intro n
  induction n with
  | zero => rfl
  | succ n ih =>
    rw [show submitN (n + 1) st data = submitN n (event st data).2 data from rfl,
      event_snd_not_valid st data h]
    exact ih

/-- C6 witness: an empty payload (missing `type`) is rejected and three
resubmissions leave the empty map empty. -/
theorem invalid_payload_no_side_effects_witness :
    (validate_payload [] ([] : Obj) ≠ .valid) ∧ submitN 3 [] ([] : Obj) = [] :=
  ⟨by decide, invalid_payload_no_side_effects [] ([] : Obj) (by decide) 3⟩

/-- C7: in every reachable state of the history map, every user entry holds a
non-empty history whose stored events have strictly increasing `time`
values. -/
theorem reachable_histories_invariant (st : State) (hst : Reach st) :
    ∀ p ∈ st, p.2 ≠ [] ∧ List.Chain' (fun a b => timeOf a < timeOf b) p.2 :=
  fun p hp => ⟨((reach_inv st hst).2 p hp).1, ((reach_inv st hst).2 p hp).2.1⟩

/-- C7 witness: after one accepted deposit the single stored history is
non-empty with (trivially) increasing times. -/
theorem reachable_histories_invariant_witness :
    [exDep] ≠ [] ∧ List.Chain' (fun a b => timeOf a < timeOf b) [exDep] :=
  reachable_histories_invariant (event [] exDep).2 (Reach.step [] exDep Reach.init)
    (1, [exDep]) (show (1, [exDep]) ∈ [((1 : Int), [exDep])] from List.mem_singleton_self _)

/-- C8 (code bug): a null `amount` does not parse as a non-negative number,
yet validation raises an uncaught `TypeError` (`pyError`) instead of
returning the invalid-amount error, because the source catches only
`ValueError` around `float(...)`. -/
theorem null_amount_validation_uncaught :
    validate_payload [] exNullAmount = .pyError ∧
      validate_payload [] exNullAmount ≠ .invalid "Invalid amount. Must be a valid number." :=
  ⟨rfl, by decide⟩

/-- C9 (code bug): a well-typed JSON object whose `amount` is null drives the
handler into an uncaught exception (HTTP 500), an error state outside the
six-error taxonomy, refuting the no-internal-error claim. -/
theorem null_amount_event_uncaught :
    event [] exNullAmount = (.serverError, []) := rfl

/-- C10: every success response has `alert` true exactly when `alert_codes`
is non-empty, and echoes the submitted `user_id`. -/
theorem alert_flag_and_user_id (st : State) (data : Obj) (r : AlertResult)
    (hev : (event st data).1 = .ok r) :
    (r.alert = true ↔ r.alert_codes ≠ []) ∧ r.user_id = getKey data "user_id" := by
  obtain ⟨-, b3, -, hcodes, halert, huid⟩ := event_ok_elim st data r hev
  refine ⟨?_, huid⟩
  rw [halert, hcodes]
  simp

/-- C10 witness: the deposit-burst run returns `alert = true` with non-empty
codes and the submitted user id. -/
theorem alert_flag_and_user_id_witness :
    ((⟨true, [123], .jint 1⟩ : AlertResult).alert = true ↔
        (⟨true, [123], .jint 1⟩ : AlertResult).alert_codes ≠ []) ∧
      (⟨true, [123], .jint 1⟩ : AlertResult).user_id = getKey exDep "user_id" :=
  alert_flag_and_user_id [] exDep ⟨true, [123], .jint 1⟩ rfl

end Midnite
